import Mathlib

/-!
Verification of the lobbysim drawing state machine and access reconciliation
engine, shallowly embedded from the final `LobbySim` class of the source
(`index.js`, the version extending `EventEmitter`).

Conventions of the embedding:
* Twitch usernames are `String`, Steam IDs are `Nat`.
* JavaScript `Array.prototype.indexOf` / `splice` are modelled by `jsIndexOf`,
  `jsSplice1` (two-argument `splice(i, 1)`) and `jsSpliceFrom` (one-argument
  `splice(i)`, which deletes through the end of the array, with negative
  indices counted from the end — exactly the semantics the source invokes).
* `Math.random()`-driven index selection is modelled by an oracle list of
  natural numbers `cs`; each pick uses `cs.headD 0 % pool.length`, so every
  in-bounds index (every possible random outcome) is covered by quantifying
  over `cs`.
* Database rows whose only observable effect is a later in-memory read are
  modelled by the in-memory lists; the user table (`users(username, steamID)`)
  is modelled as a lookup `users : String → Option Nat` (a missing row makes
  `rows[0].steamID` throw inside the promise callback, so the corresponding
  allow-list mutation simply does not happen — modelled by the `none` branch).
* The numeric argument of `!draw close` is modelled as `Option ℚ`: `none` is
  a value for which JavaScript `isNaN` is true (e.g. `undefined` or a
  non-numeric string), `some q` a numeric value.  The loop
  `for (let i = 0; i < nWinners; i++)` then runs `max 0 ⌈q⌉` times (when the
  pool does not run out), which `natIters` computes.
-/

/-- JavaScript `Array.prototype.indexOf`: index of the first occurrence,
`-1` if absent. -/
def jsIndexOf {α : Type} [DecidableEq α] : List α → α → Int
  | [], _ => -1
  | x :: xs, y =>
    if x = y then 0
    else
      let r := jsIndexOf xs y
      if r = -1 then -1 else r + 1

/-- JavaScript `arr.splice(i, 1)`: remove the element at index `i`. -/
def jsSplice1 {α : Type} (l : List α) (i : Nat) : List α :=
  l.take i ++ l.drop (i + 1)

/-- JavaScript `arr.splice(start)` with the delete count omitted: every
element from the (normalised) start index through the end is removed.  A
negative start counts from the end of the array. -/
def jsSpliceFrom {α : Type} (l : List α) (start : Int) : List α :=
  let s : Int := if start < 0 then max ((l.length : Int) + start) 0
                 else min start (l.length : Int)
  l.take s.toNat

/-- Number of iterations of the JavaScript loop
`for (let i = 0; i < n; i++)` for a numeric bound `n` (the number of naturals
strictly below `n`). -/
def natIters (q : ℚ) : Nat := (Int.ceil q).toNat

/-- The per-channel drawing state together with the associated Steam room
roster, as held by `this.drawings[channel]` and
`this.channels[chatID].allowedMembers` in the source.  `openFlag` is the
`open` field of the drawing. -/
structure DState where
  openFlag : Bool
  entries : List String
  winners : List String
  allowedMembers : List Nat
  deriving DecidableEq, Repr

/-- The result `closeDrawing` reports: the two early-return whispers and the
normal path. -/
inductive CloseResult where
  | noOpenDrawing
  | invalidCount
  | closed
  deriving DecidableEq, Repr

/-- The result `rerollDrawing` reports. -/
inductive RerollResult where
  | usage
  | unknownWinner
  | poolExhausted
  | replaced (w : String)
  deriving DecidableEq, Repr

/-- `openDrawing`: refuse if already open, else set `open`, clear winners and
entries (the roster is untouched). -/
def openOp (s : DState) : DState :=
  if s.openFlag then s
  else { s with openFlag := true, winners := [], entries := [] }

/-- The `!play` command path that reaches `enterDrawing`: refuse while no
drawing is open; with no stored profile the user is only asked for a link;
an identity already in the pool is refused; otherwise `enterDrawing` pushes
`tickets` copies of the username (`subMultiplier` for subscribers, else 1). -/
def enterOp (users : String → Option Nat) (subMultiplier : Nat)
    (username : String) (subscriber : Bool) (s : DState) : DState :=
  if !s.openFlag then s
  else
    match users username with
    | none => s
    | some _ =>
      if jsIndexOf s.entries username ≠ -1 then s
      else
        { s with entries :=
            s.entries ++ List.replicate (if subscriber then subMultiplier else 1) username }

/-- `_pickWinner`: `null` on an empty pool; otherwise take the entry at the
random index, delete every copy of it from the pool, append it to the winners
and append its resolved Steam ID (when the `users` row exists) to the
room's `allowedMembers`. -/
def pickWinnerOp (users : String → Option Nat) (c : Nat) (s : DState) :
    Option String × DState :=
  if s.entries.isEmpty then (none, s)
  else
    let w := s.entries.getD (c % s.entries.length) ""
    (some w,
      { s with entries := s.entries.filter (· ≠ w)
             , winners := s.winners ++ [w]
             , allowedMembers := s.allowedMembers ++ (users w).toList })

/-- `_removeWinner`: `false` when the name is not among the winners;
otherwise `winners.splice(index, 1)` and, for the resolved Steam ID,
`allowedMembers.splice(allowedMembers.indexOf(steamID))` — the one-argument
splice of the source, delete count omitted. -/
def removeWinnerOp (users : String → Option Nat) (w : String) (s : DState) :
    Bool × DState :=
  let idx := jsIndexOf s.winners w
  if idx = -1 then (false, s)
  else
    let winners1 := jsSplice1 s.winners idx.toNat
    let allowed1 :=
      match users w with
      | some sid => jsSpliceFrom s.allowedMembers (jsIndexOf s.allowedMembers sid)
      | none => s.allowedMembers
    (true, { s with winners := winners1, allowedMembers := allowed1 })

/-- The winner-picking loop of `closeDrawing`: up to `k` calls of
`_pickWinner`, stopping early when it returns `null`. -/
def closePicks (users : String → Option Nat) : List Nat → Nat → DState → DState
  | _, 0, s => s
  | cs, k + 1, s =>
    match pickWinnerOp users (cs.headD 0) s with
    | (none, s1) => s1
    | (some _, s1) => closePicks users cs.tail k s1

/-- `closeDrawing`: refuse when no drawing is open; refuse when `isNaN(n)`;
otherwise clear `open` and, when the pool is non-empty, run the picking
loop for `natIters q` rounds. -/
def closeOp (users : String → Option Nat) (cs : List Nat) (n : Option ℚ)
    (s : DState) : CloseResult × DState :=
  if !s.openFlag then (.noOpenDrawing, s)
  else
    match n with
    | none => (.invalidCount, s)
    | some q =>
      let s1 := { s with openFlag := false }
      (.closed, if s1.entries.isEmpty then s1 else closePicks users cs (natIters q) s1)

/-- `rerollDrawing`: usage error when no winner argument was given; report
when `_removeWinner` fails; after a successful removal, `_pickWinner` —
`null` means the "no entrants left" message (the removal is not undone). -/
def rerollOp (users : String → Option Nat) (c : Nat) (winner : Option String)
    (s : DState) : RerollResult × DState :=
  match winner with
  | none => (.usage, s)
  | some w =>
    match removeWinnerOp users w s with
    | (false, s1) => (.unknownWinner, s1)
    | (true, s1) =>
      match pickWinnerOp users c s1 with
      | (none, s2) => (.poolExhausted, s2)
      | (some w2, s2) => (.replaced w2, s2)

/-- `isAllowed`: member of `allowedMembers`, or the bot's own Steam ID. -/
def isAllowed (allowedMembers : List Nat) (botID userID : Nat) : Bool :=
  decide (jsIndexOf allowedMembers userID ≠ -1) || decide (userID = botID)

/-- The `chatStateChange` change codes delivered by the Steam collaborator. -/
inductive ChatStateChange where
  | entered
  | left
  | disconnected
  | kicked
  | banned
  | voiceSpeaking
  | voiceDoneSpeaking
  deriving DecidableEq, Repr

/-- `_kickIfForbidden`: the kick actions issued (one kick for the member, or
none). -/
def kickIfForbidden (allowedMembers : List Nat) (botID userID : Nat) : List Nat :=
  if isAllowed allowedMembers botID userID then [] else [userID]

/-- The kick actions the `steamStateChanged` handler issues for one event:
only an `Entered` event is enforced, every other change code is logged
only. -/
def steamStateChangedKicks (allowedMembers : List Nat) (botID : Nat)
    (change : ChatStateChange) (userID : Nat) : List Nat :=
  match change with
  | .entered => kickIfForbidden allowedMembers botID userID
  | _ => []

/-- The allow-list seeded by the constructor for a room, before the
`initialized-db` handler has loaded anything: just the configured main
user. -/
def seedAllowedMembers (mainUser : Nat) : List Nat := [mainUser]

/-- The allow-list after the `initialized-db` handler has loaded the latest
winner rows for the channel: `[mainUser].concat(steamIDs)`. -/
def loadedAllowedMembers (mainUser : Nat) (winnerIDs : List Nat) : List Nat :=
  mainUser :: winnerIDs

/-- The winner-selection loop in isolation (the loop body shared by
`closeDrawing` and, one round at a time, `rerollDrawing`): repeat up to `n`
times — stop on an empty pool, otherwise take the entry at the random index,
delete every copy of it from the pool and append it to the winners.  Returns
the picked winners and the residual pool. -/
def pickWinners : List Nat → List String → Nat → List String × List String
  | _, entries, 0 => ([], entries)
  | cs, entries, n + 1 =>
    if entries.isEmpty then ([], entries)
    else
      let w := entries.getD (cs.headD 0 % entries.length) ""
      let p := pickWinners cs.tail (entries.filter (· ≠ w)) n
      (w :: p.1, p.2)

/-- `enterDrawing` itself (the guards of the `!play` handler already
passed): push `tickets` copies of the username onto the in-memory pool and
insert one `entries` row per ticket. -/
def enterDrawingRows (subMultiplier : Nat) (subscriber : Bool) (username : String)
    (entries dbEntries : List String) : List String × List String :=
  let tickets := if subscriber then subMultiplier else 1
  (entries ++ List.replicate tickets username,
   dbEntries ++ List.replicate tickets username)

/-- The `!quit` command handler.  Its removal loop is
`while ((index = this.drawings[channel].entries.indexOf(displayName)) != -1)
this.drawings.splice(index, 1)` — the splice target is `this.drawings`, the
plain per-channel map object, which has no `splice` method, so the first
iteration throws a `TypeError` and the handler aborts before the database
delete below the loop; `none` models that abort.  When the display name is
not in the pool the loop exits at once and the handler deletes every
`entries` row of the username (with no epoch filter). -/
def quitCommand (displayName username : String) (entries dbEntries : List String) :
    Option (List String × List String) :=
  if jsIndexOf entries displayName ≠ -1 then none
  else some (entries, dbEntries.filter (· ≠ username))

/-! ### Lemmas about the JavaScript array primitives -/

theorem jsIndexOf_nonneg {α : Type} [DecidableEq α] (l : List α) (y : α)
    (h : jsIndexOf l y ≠ -1) : 0 ≤ jsIndexOf l y := by
  induction l with
  | nil => simp [jsIndexOf] at h
  | cons x xs ih =>
    by_cases hxy : x = y
    · simp [jsIndexOf, hxy]
    · simp only [jsIndexOf, if_neg hxy] at h ⊢
      by_cases hr : jsIndexOf xs y = -1
      · simp [hr] at h
      · have := ih hr
        simp only [if_neg hr]
        omega

theorem jsIndexOf_eq_neg_one_iff {α : Type} [DecidableEq α] (l : List α) (y : α) :
    jsIndexOf l y = -1 ↔ y ∉ l := by
  induction l with
  | nil => simp [jsIndexOf]
  | cons x xs ih =>
    by_cases hxy : x = y
    · subst hxy
      simp [jsIndexOf]
    · simp only [jsIndexOf, if_neg hxy]
      by_cases hr : jsIndexOf xs y = -1
      · simp only [if_pos hr, List.mem_cons, true_iff]
        push_neg
        exact ⟨fun hy => hxy hy.symm, ih.mp hr⟩
      · have hnn := jsIndexOf_nonneg xs y hr
        simp only [if_neg hr]
        constructor
        · intro h; omega
        · intro h
          exact absurd (ih.mpr (fun hy => h (List.mem_cons_of_mem _ hy))) hr

theorem jsIndexOf_ne_neg_one_iff {α : Type} [DecidableEq α] (l : List α) (y : α) :
    jsIndexOf l y ≠ -1 ↔ y ∈ l := by
  rw [ne_eq, jsIndexOf_eq_neg_one_iff, not_not]

theorem jsSplice1_eq_erase (l : List String) (y : String) (h : y ∈ l) :
    jsSplice1 l (jsIndexOf l y).toNat = l.erase y := by
  induction l with
  | nil => cases h
  | cons x xs ih =>
    by_cases hxy : x = y
    · subst hxy
      simp [jsSplice1, jsIndexOf, List.erase_cons_head]
    · have hy : y ∈ xs := by
        rcases List.mem_cons.mp h with h1 | h1
        · exact absurd h1.symm hxy
        · exact h1
      have hr : jsIndexOf xs y ≠ -1 := (jsIndexOf_ne_neg_one_iff xs y).mpr hy
      have hnn := jsIndexOf_nonneg xs y hr
      have htn : (jsIndexOf xs y + 1).toNat = (jsIndexOf xs y).toNat + 1 := by omega
      have herase : (x :: xs).erase y = x :: xs.erase y := by
        rw [List.erase_cons_tail]
        simp [hxy]
      rw [herase, ← ih hy]
      simp only [jsIndexOf, if_neg hxy, if_neg hr, htn]
      simp [jsSplice1]

theorem jsSplice1_length (l : List String) (y : String) (h : y ∈ l) :
    (jsSplice1 l (jsIndexOf l y).toNat).length + 1 = l.length := by
  rw [jsSplice1_eq_erase l y h, List.length_erase_of_mem h]
  have : 0 < l.length := List.length_pos.mpr (List.ne_nil_of_mem h)
  omega

theorem jsSplice1_subset {α : Type} (l : List α) (i : Nat) (x : α)
    (h : x ∈ jsSplice1 l i) : x ∈ l := by
  rcases List.mem_append.mp h with h1 | h1
  · exact List.mem_of_mem_take h1
  · exact List.mem_of_mem_drop h1

theorem getD_mod_mem {l : List String} (h : ¬ l.isEmpty) (c : Nat) (d : String) :
    l.getD (c % l.length) d ∈ l := by
  have hne : l ≠ [] := by
    cases l with
    | nil => simp at h
    | cons a as => exact List.cons_ne_nil a as
  have hl : 0 < l.length := List.length_pos.mpr hne
  have hlt : c % l.length < l.length := Nat.mod_lt _ hl
  rw [List.getD_eq_getElem l d hlt]
  exact List.getElem_mem hlt

/-! ### C1: enforcement of a room membership Entered event -/

/-- C1: for every room membership Entered event, if the entering member is
not in the room's current allow-list and is not the bot's own Steam ID, the
`steamStateChanged` handler issues a kick for exactly that member; if the
member is in the allow-list or is the bot itself, no kick is issued. -/
theorem c1_entered_kick_iff (allowedMembers : List Nat) (botID userID : Nat) :
    (userID ∉ allowedMembers → userID ≠ botID →
      steamStateChangedKicks allowedMembers botID .entered userID = [userID]) ∧
    (userID ∈ allowedMembers ∨ userID = botID →
      steamStateChangedKicks allowedMembers botID .entered userID = []) := by
  constructor
  · intro hmem hbot
    have h1 : jsIndexOf allowedMembers userID = -1 :=
      (jsIndexOf_eq_neg_one_iff _ _).mpr hmem
    simp [steamStateChangedKicks, kickIfForbidden, isAllowed, h1, hbot]
  · intro h
    rcases h with h | h
    · have h1 : jsIndexOf allowedMembers userID ≠ -1 :=
        (jsIndexOf_ne_neg_one_iff _ _).mpr h
      simp [steamStateChangedKicks, kickIfForbidden, isAllowed, h1]
    · simp [steamStateChangedKicks, kickIfForbidden, isAllowed, h]

/-- Witness for C1 at a concrete room: allow-list `[5]`, bot `0`; member `7`
is kicked, member `5` is not, the bot `0` is not. -/
theorem c1_entered_kick_iff_witness :
    steamStateChangedKicks [5] 0 .entered 7 = [7] ∧
    steamStateChangedKicks [5] 0 .entered 5 = [] ∧
    steamStateChangedKicks [5] 0 .entered 0 = [] :=
  ⟨(c1_entered_kick_iff [5] 0 7).1 (by decide) (by decide),
   (c1_entered_kick_iff [5] 0 5).2 (Or.inl (by decide)),
   (c1_entered_kick_iff [5] 0 0).2 (Or.inr rfl)⟩

/-! ### The winner-selection loop -/

theorem toFinset_filter_ne (entries : List String) (w : String) :
    (entries.filter (· ≠ w)).toFinset = entries.toFinset.erase w := by
  rw [List.toFinset_filter]
  simp [Finset.filter_ne']

theorem pickWinners_spec (n : Nat) : ∀ (cs : List Nat) (entries : List String),
    (pickWinners cs entries n).1.Nodup ∧
    (∀ w ∈ (pickWinners cs entries n).1, w ∈ entries) ∧
    (∀ w ∈ (pickWinners cs entries n).1, w ∉ (pickWinners cs entries n).2) ∧
    (∀ x ∈ (pickWinners cs entries n).2, x ∈ entries) := by
  induction n with
  | zero =>
    intro cs entries
    simp [pickWinners]
  | succ n ih =>
    intro cs entries
    by_cases he : entries.isEmpty
    · simp [pickWinners, he]
    · simp only [pickWinners, if_neg he]
      obtain ⟨ihnd, ihmem, ihnotres, ihres⟩ :=
        ih cs.tail (entries.filter (· ≠ entries.getD (cs.headD 0 % entries.length) ""))
      have hwmem : entries.getD (cs.headD 0 % entries.length) "" ∈ entries :=
        getD_mod_mem he _ _
      refine ⟨?_, ?_, ?_, ?_⟩
      · refine List.nodup_cons.mpr ⟨fun hmem => ?_, ihnd⟩
        have := ihmem _ hmem
        simp at this
      · intro w hw
        rcases List.mem_cons.mp hw with h | h
        · exact h ▸ hwmem
        · have := ihmem _ h
          exact List.mem_of_mem_filter this
      · intro w hw
        rcases List.mem_cons.mp hw with h | h
        · subst h
          intro hres
          have := ihres _ hres
          simp at this
        · exact ihnotres _ h
      · intro x hx
        exact List.mem_of_mem_filter (ihres _ hx)

theorem pickWinners_length (n : Nat) : ∀ (cs : List Nat) (entries : List String),
    (pickWinners cs entries n).1.length = min n entries.toFinset.card := by
  induction n with
  | zero =>
    intro cs entries
    simp [pickWinners]
  | succ n ih =>
    intro cs entries
    by_cases he : entries.isEmpty
    · have he' : entries = [] := by
        cases entries with
        | nil => rfl
        | cons a as => simp at he
      subst he'
      simp [pickWinners]
    · simp only [pickWinners, if_neg he]
      have hwmem : entries.getD (cs.headD 0 % entries.length) "" ∈ entries :=
        getD_mod_mem he _ _
      have hcard : (entries.filter
          (· ≠ entries.getD (cs.headD 0 % entries.length) "")).toFinset.card =
          entries.toFinset.card - 1 := by
        rw [toFinset_filter_ne, Finset.card_erase_of_mem (List.mem_toFinset.mpr hwmem)]
      have hpos : 0 < entries.toFinset.card :=
        Finset.card_pos.mpr ⟨_, List.mem_toFinset.mpr hwmem⟩
      simp only [List.length_cons, ih cs.tail, hcard]
      omega

theorem pickWinners_res_empty (n : Nat) : ∀ (cs : List Nat) (entries : List String),
    entries.toFinset.card ≤ n → (pickWinners cs entries n).2 = [] := by
  induction n with
  | zero =>
    intro cs entries h
    have h0 : entries.toFinset = ∅ := Finset.card_eq_zero.mp (Nat.le_zero.mp h)
    have he : entries = [] := by simpa using h0
    simp [pickWinners, he]
  | succ n ih =>
    intro cs entries h
    by_cases he : entries.isEmpty
    · have he' : entries = [] := by
        cases entries with
        | nil => rfl
        | cons a as => simp at he
      simp [pickWinners, he, he']
    · simp only [pickWinners, if_neg he]
      apply ih
      have hwmem : entries.getD (cs.headD 0 % entries.length) "" ∈ entries :=
        getD_mod_mem he _ _
      have hcard : (entries.filter
          (· ≠ entries.getD (cs.headD 0 % entries.length) "")).toFinset.card =
          entries.toFinset.card - 1 := by
        rw [toFinset_filter_ne, Finset.card_erase_of_mem (List.mem_toFinset.mpr hwmem)]
      have hpos : 0 < entries.toFinset.card :=
        Finset.card_pos.mpr ⟨_, List.mem_toFinset.mpr hwmem⟩
      omega

/-- C3: the winner-selection loop used by Close and Reroll stops on an empty
pool and otherwise repeatedly picks an entry (the random draw is modelled by
the index oracle `cs`), removes every copy of the picked identity from the
pool and appends it to the winners; consequently, for every initial pool,
every oracle and every requested count, the produced winners are pairwise
distinct, each comes from the initial pool, and no entry of a picked
identity remains in the residual pool. -/
theorem c3_selection_distinct_no_linger (cs : List Nat) (entries : List String)
    (n : Nat) :
    (pickWinners cs entries n).1.Nodup ∧
    (∀ w ∈ (pickWinners cs entries n).1, w ∈ entries) ∧
    (∀ w ∈ (pickWinners cs entries n).1,
      w ∉ (pickWinners cs entries n).2) ∧
    (pickWinners cs [] n).1 = [] :=
  ⟨(pickWinners_spec n cs entries).1,
   (pickWinners_spec n cs entries).2.1,
   (pickWinners_spec n cs entries).2.2.1,
   by cases n <;> simp [pickWinners]⟩

/-- Witness for C3 on the pool `[A, B, B, B]` with oracle `[1, 0]` and
count 2: winners `[B, A]`, distinct, drawn from the pool, residual empty. -/
theorem c3_selection_distinct_no_linger_witness :
    (pickWinners [1, 0] ["A", "B", "B", "B"] 2).1.Nodup ∧
    (∀ w ∈ (pickWinners [1, 0] ["A", "B", "B", "B"] 2).1,
      w ∈ ["A", "B", "B", "B"]) ∧
    (∀ w ∈ (pickWinners [1, 0] ["A", "B", "B", "B"] 2).1,
      w ∉ (pickWinners [1, 0] ["A", "B", "B", "B"] 2).2) ∧
    (pickWinners [1, 0] [] 2).1 = [] :=
  c3_selection_distinct_no_linger [1, 0] ["A", "B", "B", "B"] 2

/-! ### Close and its relation to the selection loop -/

theorem closePicks_eq (users : String → Option Nat) (n : Nat) :
    ∀ (cs : List Nat) (s : DState),
    closePicks users cs n s =
      { openFlag := s.openFlag
      , entries := (pickWinners cs s.entries n).2
      , winners := s.winners ++ (pickWinners cs s.entries n).1
      , allowedMembers :=
          s.allowedMembers ++ (pickWinners cs s.entries n).1.filterMap users } := by
  induction n with
  | zero =>
    intro cs s
    simp [closePicks, pickWinners]
  | succ n ih =>
    intro cs s
    by_cases he : s.entries.isEmpty
    · simp [closePicks, pickWinnerOp, he, pickWinners]
    · simp only [closePicks, pickWinnerOp, if_neg he, pickWinners]
      rw [ih]
      simp only [List.filterMap_cons]
      cases users (s.entries.getD (cs.headD 0 % s.entries.length) "") <;>
        simp [List.append_assoc, Option.toList]

theorem natIters_natCast (n : Nat) : natIters (n : ℚ) = n := by
  rw [natIters, Int.ceil_natCast, Int.toNat_natCast]

theorem closeOp_state_eq (users : String → Option Nat) (cs : List Nat) (n : Nat)
    (s : DState) (hopen : s.openFlag = true) :
    (closeOp users cs (some (n : ℚ)) s).2 =
      if s.entries.isEmpty then { s with openFlag := false }
      else closePicks users cs n { s with openFlag := false } := by
  simp [closeOp, hopen, natIters_natCast]

/-- C4: for an open drawing (winners freshly cleared by Open) and a positive
requested count `n`: when `n` is at most the number of distinct entrants,
Close produces exactly `n` distinct winners, each drawn from the pre-close
pool, and none of them remains in the post-close pool; when `n` exceeds the
number of distinct entrants, Close produces exactly one winner per distinct
entrant and leaves an empty residual pool. -/
theorem c4_close_counts (users : String → Option Nat) (cs : List Nat) (n : Nat)
    (s s' : DState) (hopen : s.openFlag = true) (hwin : s.winners = [])
    (hn : 0 < n) (hs' : s' = (closeOp users cs (some (n : ℚ)) s).2) :
    (n ≤ s.entries.toFinset.card →
      s'.winners.length = n ∧ s'.winners.Nodup ∧
      (∀ w ∈ s'.winners, w ∈ s.entries) ∧
      (∀ w ∈ s'.winners, w ∉ s'.entries)) ∧
    (s.entries.toFinset.card < n →
      s'.winners.length = s.entries.toFinset.card ∧ s'.entries = []) := by
  subst hs'
  rw [closeOp_state_eq users cs n s hopen]
  by_cases he : s.entries.isEmpty
  · have he' : s.entries = [] := by
      cases hl : s.entries with
      | nil => rfl
      | cons a as => rw [hl] at he; simp at he
    simp only [if_pos he]
    constructor
    · intro hle
      rw [he'] at hle
      simp at hle
      omega
    · intro _
      rw [he']
      simp [hwin]
  · simp only [if_neg he]
    rw [closePicks_eq]
    simp only [hwin, List.nil_append]
    have hlen := pickWinners_length n cs s.entries
    have hspec := pickWinners_spec n cs s.entries
    constructor
    · intro hle
      refine ⟨?_, hspec.1, hspec.2.1, hspec.2.2.1⟩
      rw [hlen]
      omega
    · intro hlt
      refine ⟨?_, ?_⟩
      · rw [hlen]
        omega
      · exact pickWinners_res_empty n cs s.entries (by omega)

/-- The user table used by the concrete traces: A, B and C have stored
Steam IDs 10, 20 and 30. -/
def usersABC : String → Option Nat := fun u =>
  if u = "A" then some 10
  else if u = "B" then some 20
  else if u = "C" then some 30
  else none

/-- An open drawing with pool `[A, B]`, no winners yet, roster seeded with
the main user 1. -/
def sAB : DState := ⟨true, ["A", "B"], [], [1]⟩

/-- Witness for C4 at the open drawing `sAB` and `n = 1`. -/
theorem c4_close_counts_witness :
    (1 ≤ sAB.entries.toFinset.card →
      (closeOp usersABC [0] (some (1 : ℚ)) sAB).2.winners.length = 1 ∧
      (closeOp usersABC [0] (some (1 : ℚ)) sAB).2.winners.Nodup ∧
      (∀ w ∈ (closeOp usersABC [0] (some (1 : ℚ)) sAB).2.winners,
        w ∈ sAB.entries) ∧
      (∀ w ∈ (closeOp usersABC [0] (some (1 : ℚ)) sAB).2.winners,
        w ∉ (closeOp usersABC [0] (some (1 : ℚ)) sAB).2.entries)) ∧
    (sAB.entries.toFinset.card < 1 →
      (closeOp usersABC [0] (some (1 : ℚ)) sAB).2.winners.length =
        sAB.entries.toFinset.card ∧
      (closeOp usersABC [0] (some (1 : ℚ)) sAB).2.entries = []) :=
  c4_close_counts usersABC [0] 1 sAB _ rfl rfl (by decide) rfl

/-! ### Reroll -/

theorem removeWinnerOp_mem (users : String → Option Nat) (w : String) (s : DState)
    (hw : w ∈ s.winners) :
    (removeWinnerOp users w s).1 = true ∧
    (removeWinnerOp users w s).2.winners = s.winners.erase w ∧
    (removeWinnerOp users w s).2.entries = s.entries ∧
    (removeWinnerOp users w s).2.openFlag = s.openFlag := by
  have hidx : ¬ jsIndexOf s.winners w = -1 := (jsIndexOf_ne_neg_one_iff _ _).mpr hw
  simp only [removeWinnerOp, if_neg hidx]
  exact ⟨by trivial, jsSplice1_eq_erase _ _ hw, by trivial, by trivial⟩

/-- C6: in a state where `w` is a current winner, the pool contains no
current winner (the invariant every state reachable through the drawing
operations satisfies) and the pool is non-empty, Reroll replaces `w` by a
new winner that is not among the previous winners minus `w`, and the number
of winners is unchanged. -/
theorem c6_reroll_fresh_winner (users : String → Option Nat) (c : Nat)
    (w : String) (s : DState) (hdisj : ∀ e ∈ s.entries, e ∉ s.winners)
    (hw : w ∈ s.winners) (hne : s.entries ≠ []) :
    ∃ w2, (rerollOp users c (some w) s).1 = .replaced w2 ∧
      w2 ∉ s.winners.filter (· ≠ w) ∧
      (rerollOp users c (some w) s).2.winners.length = s.winners.length := by
  obtain ⟨hb, hwin1, hent1, _⟩ := removeWinnerOp_mem users w s hw
  rcases hr : removeWinnerOp users w s with ⟨b, s1⟩
  rw [hr] at hb hwin1 hent1
  simp only at hb hwin1 hent1
  subst hb
  have hne1 : ¬ s1.entries.isEmpty := by
    rw [hent1]
    cases hl : s.entries with
    | nil => exact absurd hl hne
    | cons a as => simp
  refine ⟨s1.entries.getD (c % s1.entries.length) "", ?_⟩
  have hw2mem : s1.entries.getD (c % s1.entries.length) "" ∈ s.entries := by
    rw [← hent1]
    exact getD_mod_mem hne1 _ _
  have hw2nw : s1.entries.getD (c % s1.entries.length) "" ∉ s.winners :=
    hdisj _ hw2mem
  simp only [rerollOp, hr, pickWinnerOp, if_neg hne1]
  refine ⟨by trivial, ?_, ?_⟩
  · intro hmem
    exact hw2nw (List.mem_of_mem_filter hmem)
  · simp only [List.length_append, List.length_singleton, hwin1]
    have := List.length_erase_add_one hw
    omega

/-- A one-entrant open drawing: pool `[A]`, roster seeded with main user 1. -/
def sA : DState := ⟨true, ["A"], [], [1]⟩

/-- The state after `!draw close 1` on `sA`: drawing closed, `A` is the
winner, the pool is empty, the roster is `[1, 10]`. -/
def sClosedA : DState := (closeOp usersABC [0] (some (1 : ℚ)) sA).2

/-- Witness for C6: rerolling `A` in a closed drawing whose winners are
`[A]` and whose pool still holds `[C]`. -/
theorem c6_reroll_fresh_winner_witness :
    ∃ w2, (rerollOp usersABC 0 (some "A") ⟨false, ["C"], ["A"], [1, 10]⟩).1 =
        .replaced w2 ∧
      w2 ∉ (["A"] : List String).filter (· ≠ "A") ∧
      (rerollOp usersABC 0 (some "A")
        ⟨false, ["C"], ["A"], [1, 10]⟩).2.winners.length =
        (["A"] : List String).length :=
  c6_reroll_fresh_winner usersABC 0 "A" ⟨false, ["C"], ["A"], [1, 10]⟩
    (by decide) (by decide) (by decide)

/-- C5 counterexample: `sClosedA` is the reachable state after closing the
one-entrant drawing `sA` with count 1 — its winners are `[A]` and its pool
is empty.  Rerolling `A` there does report pool exhaustion, but the winners
list is NOT identical before and after the call: the prior winner has
already been removed, so the claimed "no state change" is false. -/
theorem c5_counterexample :
    sClosedA.winners = ["A"] ∧ sClosedA.entries = [] ∧
    (rerollOp usersABC 0 (some "A") sClosedA).1 = RerollResult.poolExhausted ∧
    (rerollOp usersABC 0 (some "A") sClosedA).2.winners = [] ∧
    (rerollOp usersABC 0 (some "A") sClosedA).2.winners ≠ sClosedA.winners := by
  decide

/-- C5 as amended: when `w` is a current winner and the pool is empty,
Reroll reports pool exhaustion, but the winner has already been retracted:
the resulting winners list is the previous one with the first occurrence of
`w` erased (so its length has decreased by one) and the pool stays empty. -/
theorem c5_amended_reroll_exhausted (users : String → Option Nat) (c : Nat)
    (w : String) (s : DState) (hw : w ∈ s.winners) (he : s.entries = []) :
    (rerollOp users c (some w) s).1 = .poolExhausted ∧
    (rerollOp users c (some w) s).2.winners = s.winners.erase w ∧
    (rerollOp users c (some w) s).2.winners.length + 1 = s.winners.length ∧
    (rerollOp users c (some w) s).2.entries = [] := by
  obtain ⟨hb, hwin1, hent1, _⟩ := removeWinnerOp_mem users w s hw
  rcases hr : removeWinnerOp users w s with ⟨b, s1⟩
  rw [hr] at hb hwin1 hent1
  simp only at hb hwin1 hent1
  subst hb
  have hemp : s1.entries.isEmpty := by rw [hent1, he]; rfl
  simp only [rerollOp, hr, pickWinnerOp, if_pos hemp]
  refine ⟨by trivial, hwin1, ?_, by rw [hent1, he]⟩
  rw [hwin1, List.length_erase_add_one hw]

/-- Witness for the amended C5 at the reachable state `sClosedA`. -/
theorem c5_amended_reroll_exhausted_witness :
    (rerollOp usersABC 0 (some "A") sClosedA).1 = .poolExhausted ∧
    (rerollOp usersABC 0 (some "A") sClosedA).2.winners =
      sClosedA.winners.erase "A" ∧
    (rerollOp usersABC 0 (some "A") sClosedA).2.winners.length + 1 =
      sClosedA.winners.length ∧
    (rerollOp usersABC 0 (some "A") sClosedA).2.entries = [] :=
  c5_amended_reroll_exhausted usersABC 0 "A" sClosedA (by decide) (by decide)

/-! ### Close guards (C7) -/

/-- C7 counterexample: with an open drawing and `n = 0` — not a positive
integer — `closeDrawing` does NOT fail with InvalidCount: the only numeric
guard in the source is `isNaN(nWinners)`, so `0` passes it, the drawing is
closed (status changes) and zero winners are picked. -/
theorem c7_counterexample :
    (closeOp usersABC [] (some 0) sA).1 = CloseResult.closed ∧
    (closeOp usersABC [] (some 0) sA).1 ≠ CloseResult.invalidCount ∧
    sA.openFlag = true ∧
    (closeOp usersABC [] (some 0) sA).2.openFlag = false ∧
    (closeOp usersABC [] (some 0) sA).2.winners = [] := by
  decide

/-- C7 as amended: Close fails with NoOpenDrawing when the drawing is
closed and with InvalidCount exactly when `n` is NaN (a non-numeric value),
in both cases changing nothing; every numeric `n` — including zero,
negative and non-integer values — is accepted: the drawing is closed
(its status changes). -/
theorem c7_amended_close_guards (users : String → Option Nat) (cs : List Nat)
    (n : Option ℚ) (s : DState) :
    (s.openFlag = false → closeOp users cs n s = (.noOpenDrawing, s)) ∧
    (s.openFlag = true → n = none → closeOp users cs n s = (.invalidCount, s)) ∧
    (∀ q : ℚ, s.openFlag = true → n = some q →
      (closeOp users cs n s).1 = .closed ∧
      (closeOp users cs n s).2.openFlag = false) := by
  refine ⟨?_, ?_, ?_⟩
  · intro h
    simp [closeOp, h]
  · intro h hn
    subst hn
    simp [closeOp, h]
  · intro q h hn
    subst hn
    simp only [closeOp, h]
    constructor
    · simp
    · by_cases he : s.entries.isEmpty <;> simp [he, closePicks_eq]

/-- Witness for the amended C7, covering all three branches. -/
theorem c7_amended_close_guards_witness :
    closeOp usersABC [] (some 0) ⟨false, [], [], []⟩ =
      (.noOpenDrawing, ⟨false, [], [], []⟩) ∧
    closeOp usersABC [] none sA = (.invalidCount, sA) ∧
    (closeOp usersABC [] (some 0) sA).1 = .closed ∧
    (closeOp usersABC [] (some 0) sA).2.openFlag = false :=
  ⟨(c7_amended_close_guards usersABC [] (some 0) ⟨false, [], [], []⟩).1 rfl,
   (c7_amended_close_guards usersABC [] none sA).2.1 rfl rfl,
   ((c7_amended_close_guards usersABC [] (some 0) sA).2.2 0 rfl rfl).1,
   ((c7_amended_close_guards usersABC [] (some 0) sA).2.2 0 rfl rfl).2⟩

/-! ### The startup race (C9) -/

/-- C9 counterexample: before the `initialized-db` handler has replaced the
constructor's seed allow-list, a membership Entered event is evaluated
immediately, not queued: member 2 — a stored winner, allowed once loading
finishes — is kicked when the same event arrives before initialization.
No deferral mechanism exists in the source. -/
theorem c9_counterexample :
    steamStateChangedKicks (seedAllowedMembers 1) 0 .entered 2 = [2] ∧
    steamStateChangedKicks (loadedAllowedMembers 1 [2]) 0 .entered 2 = [] := by
  decide

/-- C9 as amended: membership events arriving before the allow-list load
are evaluated at once against the seeded `[mainUser]` list; every member
other than the main user and the bot — in particular every stored winner —
is kicked, although the same event after loading produces no kick. -/
theorem c9_amended_no_deferral (mainUser botID w : Nat) (ids : List Nat)
    (h1 : w ≠ mainUser) (h2 : w ≠ botID) (h3 : w ∈ ids) :
    steamStateChangedKicks (seedAllowedMembers mainUser) botID .entered w = [w] ∧
    steamStateChangedKicks (loadedAllowedMembers mainUser ids) botID .entered w = [] := by
  constructor
  · refine (c1_entered_kick_iff (seedAllowedMembers mainUser) botID w).1 ?_ h2
    simp [seedAllowedMembers, h1]
  · refine (c1_entered_kick_iff (loadedAllowedMembers mainUser ids) botID w).2
      (Or.inl ?_)
    simp [loadedAllowedMembers, h3]

/-- Witness for the amended C9: main user 1, bot 0, stored winner 2. -/
theorem c9_amended_no_deferral_witness :
    steamStateChangedKicks (seedAllowedMembers 1) 0 .entered 2 = [2] ∧
    steamStateChangedKicks (loadedAllowedMembers 1 [2]) 0 .entered 2 = [] :=
  c9_amended_no_deferral 1 0 2 [2] (by decide) (by decide) (by decide)

/-! ### The allow-list maintenance bug (C2, C10) -/

/-- The constructor state for a channel: no open drawing, empty pool and
winners, roster seeded with main user 1. -/
def sMain : DState := ⟨false, [], [], [1]⟩

/-- A reachable trace: open the drawing, A and B enter (one ticket each),
close with count 2 (winners A then B, roster `[1, 10, 20]`), then reroll A
with an exhausted pool.  `_removeWinner` runs
`allowedMembers.splice(allowedMembers.indexOf(10))` — the one-argument
splice — which deletes from index 1 through the end. -/
def c2TraceState : DState :=
  (rerollOp usersABC 0 (some "A")
    (closeOp usersABC [0, 0] (some 2)
      (enterOp usersABC 2 "B" false
        (enterOp usersABC 2 "A" false (openOp sMain)))).2).2

/-- C2 counterexample: in the reachable state `c2TraceState` the current
winners are `[B]` with resolved Steam ID 20, but the room's allow-list is
`[1]` — it is NOT the set `{mainMember} ∪ {externalIdentity(w) : w ∈
currentWinners}`, because the one-argument splice in `_removeWinner` also
deleted B's ID. -/
theorem c2_allowlist_divergence :
    c2TraceState.winners = ["B"] ∧
    usersABC "B" = some 20 ∧
    c2TraceState.allowedMembers = [1] ∧
    ¬ (∀ x : Nat, x ∈ c2TraceState.allowedMembers ↔
        x = 1 ∨ ∃ w ∈ c2TraceState.winners, usersABC w = some x) := by
  refine ⟨by decide, by decide, by decide, fun h => ?_⟩
  exact absurd ((h 20).mpr (Or.inr ⟨"B", by decide, by decide⟩)) (by decide)

/-- One further reachable step after `c2TraceState`: reroll B.  B's Steam
ID 20 is no longer in the (already truncated) allow-list `[1]`, so
`allowedMembers.splice(indexOf(20))` is `splice(-1)`, which deletes the
LAST element — the main user. -/
def c10TraceState : DState :=
  (rerollOp usersABC 0 (some "B") c2TraceState).2

/-- C10 counterexample: after the reachable operation sequence
Open, Enter A, Enter B, Close 2, Reroll A, Reroll B, the room's
allow-list is empty — the configured main member 1 has been removed by
`_removeWinner`'s splice, refuting the claimed invariant. -/
theorem c10_main_member_lost :
    c10TraceState.allowedMembers = [] ∧
    (1 : Nat) ∉ c10TraceState.allowedMembers ∧
    sMain.allowedMembers = [1] := by
  decide

/-! ### Enter followed by quit (C8) -/

theorem quitCommand_throws_of_mem (displayName username : String)
    (entries dbEntries : List String) (h : displayName ∈ entries) :
    quitCommand displayName username entries dbEntries = none := by
  simp [quitCommand, (jsIndexOf_ne_neg_one_iff entries displayName).mpr h]

/-- C8: entering and then quitting does NOT restore the entry pool.  With
weight 1 the user alice enters the empty pool; the `!quit` handler then
finds alice at index 0 and executes `this.drawings.splice(index, 1)` — but
`this.drawings` is the per-channel map object, which has no `splice`
method, so a `TypeError` is thrown (`none`): no ticket is removed from the
in-memory pool and the storage delete below the loop is never reached,
contradicting the claim (and the README's description of `!quit`). -/
theorem c8_quit_throws :
    enterDrawingRows 2 false "alice" [] [] = (["alice"], ["alice"]) ∧
    quitCommand "alice" "alice"
      (enterDrawingRows 2 false "alice" [] []).1
      (enterDrawingRows 2 false "alice" [] []).2 = none := by
  decide

/-! ### The reachable-state invariant grounding the hypothesis of C6 -/

/-- Invariant of every state reachable through the drawing operations: no
pool entry is a current winner, and while the drawing is open the winners
list is empty. -/
def DrawInv (s : DState) : Prop :=
  (∀ e ∈ s.entries, e ∉ s.winners) ∧ (s.openFlag = true → s.winners = [])

/-- States reachable from a freshly constructed channel through the drawing
operations. -/
inductive Reachable : DState → Prop where
  | init (mainUser : Nat) : Reachable ⟨false, [], [], [mainUser]⟩
  | openR {s : DState} : Reachable s → Reachable (openOp s)
  | enterR {s : DState} (users : String → Option Nat) (m : Nat) (u : String)
      (b : Bool) : Reachable s → Reachable (enterOp users m u b s)
  | closeR {s : DState} (users : String → Option Nat) (cs : List Nat)
      (n : Option ℚ) : Reachable s → Reachable (closeOp users cs n s).2
  | rerollR {s : DState} (users : String → Option Nat) (c : Nat)
      (w : Option String) : Reachable s → Reachable (rerollOp users c w s).2

theorem drawInv_openOp (s : DState) (h : DrawInv s) : DrawInv (openOp s) := by
  cases ho : s.openFlag
  · simp [openOp, ho, DrawInv]
  · simpa [openOp, ho] using h

theorem drawInv_enterOp (users : String → Option Nat) (m : Nat) (u : String)
    (b : Bool) (s : DState) (h : DrawInv s) : DrawInv (enterOp users m u b s) := by
  unfold enterOp
  cases ho : s.openFlag
  · simpa [ho] using h
  · simp only [ho, Bool.not_true, Bool.false_eq_true, if_false]
    cases users u with
    | none => exact h
    | some sid =>
      by_cases hin : jsIndexOf s.entries u ≠ -1
      · simp only [if_pos hin]
        exact h
      · simp only [if_neg hin]
        have hw : s.winners = [] := h.2 ho
        exact ⟨fun e _ => by simp [hw], fun _ => h.2 ho⟩

theorem drawInv_closeOp (users : String → Option Nat) (cs : List Nat)
    (n : Option ℚ) (s : DState) (h : DrawInv s) : DrawInv (closeOp users cs n s).2 := by
  unfold closeOp
  cases ho : s.openFlag
  · simpa using h
  · cases n with
    | none => simpa using h
    | some q =>
      simp only [Bool.not_true, Bool.false_eq_true, if_false]
      by_cases he : s.entries.isEmpty
      · simp only [if_pos he]
        exact ⟨h.1, by simp⟩
      · simp only [if_neg he]
        rw [closePicks_eq]
        obtain hspec := pickWinners_spec (natIters q) cs s.entries
        refine ⟨?_, by simp⟩
        intro x hx hmem
        rcases List.mem_append.mp hmem with hm | hm
        · exact h.1 x (hspec.2.2.2 x hx) hm
        · exact hspec.2.2.1 x hm hx

theorem drawInv_rerollOp (users : String → Option Nat) (c : Nat)
    (w : Option String) (s : DState) (h : DrawInv s) :
    DrawInv (rerollOp users c w s).2 := by
  cases w with
  | none => exact h
  | some w =>
    by_cases hmem : w ∈ s.winners
    · obtain ⟨hb, hwin1, hent1, hopen1⟩ := removeWinnerOp_mem users w s hmem
      rcases hr : removeWinnerOp users w s with ⟨b, s1⟩
      rw [hr] at hb hwin1 hent1 hopen1
      simp only at hb hwin1 hent1 hopen1
      subst hb
      have hof : s.openFlag = false := by
        cases hcase : s.openFlag
        · rfl
        · rw [h.2 hcase] at hmem
          cases hmem
      have hinv1 : ∀ e ∈ s1.entries, e ∉ s1.winners := by
        intro e he hew
        rw [hent1] at he
        rw [hwin1] at hew
        exact h.1 e he (List.mem_of_mem_erase hew)
      by_cases he1 : s1.entries.isEmpty
      · simp only [rerollOp, hr, pickWinnerOp, if_pos he1]
        exact ⟨hinv1, fun hop => absurd hop (by rw [hopen1, hof]; simp)⟩
      · simp only [rerollOp, hr, pickWinnerOp, if_neg he1]
        constructor
        · intro e he hew
          have hee : e ∈ s1.entries := List.mem_of_mem_filter he
          have hne : e ≠ s1.entries.getD (c % s1.entries.length) "" := by
            have := List.of_mem_filter he
            simpa using this
          rcases List.mem_append.mp hew with hm | hm
          · exact hinv1 e hee hm
          · exact hne (List.mem_singleton.mp hm)
        · intro hop
          exact absurd hop (by simp only [hopen1, hof]; simp)
    · have hidx : jsIndexOf s.winners w = -1 := (jsIndexOf_eq_neg_one_iff _ _).mpr hmem
      simp only [rerollOp, removeWinnerOp, if_pos hidx]
      exact h

/-- Every reachable state satisfies the invariant, so the disjointness
hypothesis of the C6 theorem holds in every state the program can be in. -/
theorem drawInv_of_reachable {s : DState} (h : Reachable s) : DrawInv s := by
  induction h with
  | init m => exact ⟨by simp, by simp⟩
  | openR _ ih => exact drawInv_openOp _ ih
  | enterR users m u b _ ih => exact drawInv_enterOp users m u b _ ih
  | closeR users cs n _ ih => exact drawInv_closeOp users cs n _ ih
  | rerollR users c w _ ih => exact drawInv_rerollOp users c w _ ih
